import Mathlib

/-!
Verification development for the Luftuj-HA automation-and-device-synchronization
engine: a shallow embedding of the timeline scheduler, the write-sequencing
interpreter, the register scale conversion and the valve synchronizer command
path, together with theorems settling the specified properties.

Sources embedded (TypeScript):
- resolveModeValue and applyWriteDefinition (utils/hruWrite);
- TimelineRunner.pickActiveEvent / applyTimelineEvent / scheduleNextTimelineTick
  of the add-on backend, and the corresponding standalone-server
  pickActiveEvent / applyTimelineEvent / startTimelineScheduler;
- the temperature scale conversion on the write path (applyTimelineEvent) and on
  the read path (GET /read handler);
- the valve synchronizer command path (setValue), modelled from the spec because
  only its interface and callers are among the sources.

Machine integers of the source are JS doubles holding integral values; they are
embedded as Int (and ℚ where fractional values such as scales occur). Fallible
operations return Option or Except. Ambient inputs of the source (Date, the rule
store, transport outcomes) are explicit parameters.
-/

namespace Luftuj

/-! ## Models of the JavaScript primitives used by the source -/

/-- Decimal digit character for a digit below ten. -/
def digitChar (d : Nat) : Char :=
  match d with
  | 0 => '0'
  | 1 => '1'
  | 2 => '2'
  | 3 => '3'
  | 4 => '4'
  | 5 => '5'
  | 6 => '6'
  | 7 => '7'
  | 8 => '8'
  | _ => '9'

/-- The ten decimal digit characters. -/
def decimalChars : List Char := ['0', '1', '2', '3', '4', '5', '6', '7', '8', '9']

/-- Numeric value of a decimal digit character. -/
def digitVal (c : Char) : Nat := c.toNat - 48

/-- Value of a list of decimal digit characters, most significant first. -/
def digitsToNat (ds : List Char) : Nat := ds.foldl (fun a c => 10 * a + digitVal c) 0

/-- Decimal digits of a natural number, most significant first. -/
def natDigits (n : Nat) : List Char :=
  if n < 10 then [digitChar n]
  else natDigits (n / 10) ++ [digitChar (n % 10)]
termination_by n
decreasing_by exact Nat.div_lt_self (by omega) (by omega)

/-- Model of JS String(n) for an integral number n: its decimal rendering. -/
def intToString (n : Int) : String :=
  if n < 0 then String.mk ('-' :: natDigits n.natAbs) else String.mk (natDigits n.toNat)

/-- Longest leading run of decimal digits, as a number; none when there is no digit.
This is the digit-consuming core of JS Number.parseInt with radix 10. -/
def parseDigits (cs : List Char) : Option Nat :=
  let ds := cs.takeWhile Char.isDigit
  if ds.isEmpty then none else some (digitsToNat ds)

/-- Optional sign followed by a digit run, the sign-handling layer of parseInt. -/
def signedDigits (cs : List Char) : Option Int :=
  match cs with
  | [] => none
  | c :: rest =>
    if c = '-' then (parseDigits rest).map (fun m => -Int.ofNat m)
    else if c = '+' then (parseDigits rest).map Int.ofNat
    else (parseDigits (c :: rest)).map Int.ofNat

/-- Model of JS Number.parseInt(cs, 10) on a character list: skip leading
whitespace, read an optional sign, then the longest run of decimal digits;
none models NaN (no digit found). -/
def charsParseInt (cs : List Char) : Option Int :=
  signedDigits (cs.dropWhile Char.isWhitespace)

/-- Model of JS Number.parseInt(s, 10). -/
def jsParseInt (s : String) : Option Int :=
  charsParseInt s.toList

/-- Model of JS Math.round: round half toward positive infinity. -/
def jsRound (q : ℚ) : Int := ⌊q + 1 / 2⌋

/-- Model of JS String.prototype.split with a single-character separator:
splits at every occurrence, keeping empty fragments. -/
def splitOnChar (sep : Char) : List Char → List (List Char)
  | [] => [[]]
  | c :: rest =>
    let r := splitOnChar sep rest
    if c = sep then [] :: r
    else
      match r with
      | [] => [[c]]
      | h :: t => (c :: h) :: t

/-! ## Mode resolution (write-sequencing interpreter and both scheduler variants)

The enum mappings of this repository are index-keyed arrays of display labels
(values: string[]); Object.entries on such an array yields the entries in
ascending index order with the stringified index as key, and Number(key) is the
index. A mapping is therefore embedded as the list of its labels, the index of a
label being its position. Numbers are embedded as Int: every mode number
occurring in this system is an integral register value. -/

/-- A desired mode value as found in a rule or request body: a number or a string. -/
inductive ModeVal where
  | num (n : Int)
  | str (s : String)
deriving DecidableEq, Repr

/-- Model of JS String(mode) for a mode value. -/
def modeToString : ModeVal → String
  | .num n => intToString n
  | .str s => s

/-- JS strict equality between a display label (a string) and a mode value:
false whenever the mode value is a number, string comparison otherwise. -/
def strictEqMode (v : String) (m : ModeVal) : Bool :=
  match m with
  | .num _ => false
  | .str s => v == s

/-- Embedding of resolveModeValue (utils/hruWrite): a numeric desired mode is
returned unchanged; otherwise the first enum entry whose label equals the
desired string gives its index; otherwise integer parsing; otherwise 0.
Total by construction: every input yields a value, no exception path exists. -/
def resolveModeValue (values : List String) (mode : ModeVal) : Int :=
  match mode with
  | .num n => n
  | .str s =>
    match values.findIdx? (fun v => v == s) with
    | some idx => Int.ofNat idx
    | none => (jsParseInt s).getD 0

/-- Embedding of the inline mode resolution of TimelineRunner.applyTimelineEvent
(add-on backend): parsed = Number.parseInt(String(mode), 10); if finite use it,
else the first label strictly equal to mode gives its index, else 0. Note that
integer parsing is attempted before label lookup. -/
def timelineModeValue (values : List String) (mode : ModeVal) : Int :=
  match jsParseInt (modeToString mode) with
  | some p => p
  | none =>
    match values.findIdx? (fun v => strictEqMode v mode) with
    | some idx => Int.ofNat idx
    | none => 0

/-- Embedding of the inline mode resolution of the standalone-server
applyTimelineEvent: a finite number is used directly; otherwise integer parsing;
otherwise the first label strictly equal to the mode gives its index; otherwise 0. -/
def serverModeValue (values : List String) (mode : ModeVal) : Int :=
  match mode with
  | .num n => n
  | .str s =>
    match jsParseInt s with
    | some p => p
    | none =>
      match values.findIdx? (fun v => v == s) with
      | some idx => Int.ofNat idx
      | none => 0

/-! ## Timeline scheduler data model -/

/-- Device directive of a rule (hruConfig): optional mode, power, temperature.
A present power or temperature models a present finite number in the source. -/
structure HruConfig where
  mode : Option ModeVal
  power : Option ℚ
  temperature : Option ℚ
deriving DecidableEq, Repr

/-- A schedule rule (TimelineEvent row): time window as HH:MM strings, optional
day of week (none = every day), priority, enabled flag, valve-opening map
(entity to opening, a null opening as Option.none), optional device directive. -/
structure TimelineEvent where
  id : Option Nat
  startTime : String
  endTime : String
  dayOfWeek : Option Int
  hruConfig : Option HruConfig
  luftatorConfig : Option (List (String × Option ℚ))
  enabled : Bool
  priority : Int
deriving DecidableEq, Repr

/-- Embedding of mapTodayToTimelineDay: JS Date.getDay (Sunday = 0) mapped to
the UI convention (Monday = 0 ... Sunday = 6). -/
def mapTodayToTimelineDay (jsDay : Nat) : Nat :=
  if jsDay = 0 then 6 else jsDay - 1

/-- Embedding of timeToMinutes: split on the colon, parse hour and minute with
parseInt defaulting each non-finite part to 0, return hour * 60 + minute. -/
def timeToMinutes (value : String) : Int :=
  let parts := splitOnChar ':' value.toList
  let h := (charsParseInt (parts.getD 0 ['0'])).getD 0
  let m := (charsParseInt (parts.getD 1 ['0'])).getD 0
  h * 60 + m

/-- The sort comparator of pickActiveEvent, literally: priority descending,
tie-breaking by later start time. -/
def eventCmp (a b : TimelineEvent) : Int :=
  if b.priority ≠ a.priority then b.priority - a.priority
  else timeToMinutes b.startTime - timeToMinutes a.startTime

/-- The total preorder induced by eventCmp: a sorts no later than b.
JS Array.prototype.sort is a stable sort ordering by the comparator, which is
exactly mergeSort with this relation. -/
def eventLe (a b : TimelineEvent) : Bool := decide (eventCmp a b ≤ 0)

/-- Embedding of the candidate filter of pickActiveEvent: enabled, day-of-week
absent or equal to today, and windowStart <= now < windowEnd. -/
def candidateEvents (events : List TimelineEvent) (today : Nat) (nowMinutes : Int) :
    List TimelineEvent :=
  (events.filter (fun e => e.enabled && (e.dayOfWeek.getD (today : Int) == (today : Int)))).filter
    (fun e =>
      decide (timeToMinutes e.startTime ≤ nowMinutes) &&
      decide (nowMinutes < timeToMinutes e.endTime))

/-- Embedding of pickActiveEvent: filter to candidates; none when empty;
otherwise stable-sort by the comparator and take the first element. -/
def pickActiveEvent (events : List TimelineEvent) (today : Nat) (nowMinutes : Int) :
    Option TimelineEvent :=
  let candidates := candidateEvents events today nowMinutes
  if candidates.isEmpty then none
  else (candidates.mergeSort eventLe).head?

/-! ## Scheduler tick effects (standalone-server applyTimelineEvent) -/

/-- Device register map of one unit family, as far as the scheduler path uses it. -/
structure HruRegister where
  address : Nat
  scale : Option ℚ
deriving DecidableEq, Repr

/-- An enumerated register: address plus index-keyed display labels. -/
structure HruEnumRegister where
  address : Nat
  values : List String
deriving DecidableEq, Repr

/-- The per-family register definition used by the scheduler device path. -/
structure HruUnitDef where
  requestedPower : HruRegister
  requestedTemperature : HruRegister
  mode : HruEnumRegister
deriving DecidableEq, Repr

/-- One observable effect of a tick: a valve set-value attempt or a device
holding-register write attempt, with its outcome. -/
inductive TickEffect where
  | valveSet (entityId : String) (value : ℚ) (ok : Bool)
  | hruWrite (address : Nat) (value : Int) (ok : Bool)
deriving DecidableEq, Repr

/-- Ambient inputs of one tick: current day and minutes, the rule store
contents, and the outcomes the external world would give each side effect. -/
structure SchedulerEnv where
  events : List TimelineEvent
  today : Nat
  nowMinutes : Int
  valveOk : String → Bool
  hruCtx : Option HruUnitDef
  connectOk : Bool
  writeOk : Nat → Int → Bool

/-- The valve loop of applyTimelineEvent: every entry with a non-null opening is
attempted in map order; a failure is caught and logged, the loop continues. -/
def runValveWrites (valveOk : String → Bool) (cfg : List (String × Option ℚ)) :
    List TickEffect :=
  cfg.filterMap (fun p => p.2.map (fun v => TickEffect.valveSet p.1 v (valveOk p.1)))

/-- The temperature write conversion of applyTimelineEvent:
raw = Math.round(temperature / (scale ?? 1)). -/
def temperatureWireValue (scale : Option ℚ) (input : ℚ) : Int :=
  jsRound (input / scale.getD 1)

/-- The device writes a directive produces, in source order: requested power
(Math.round), requested temperature (scale conversion), then mode (inline
resolution), each only when present. -/
def hruPlannedWrites (defn : HruUnitDef) (cfg : HruConfig) : List (Nat × Int) :=
  (match cfg.power with
    | some p => [(defn.requestedPower.address, jsRound p)]
    | none => []) ++
  (match cfg.temperature with
    | some t =>
      [(defn.requestedTemperature.address,
        temperatureWireValue defn.requestedTemperature.scale t)]
    | none => []) ++
  (match cfg.mode with
    | some m => [(defn.mode.address, serverModeValue defn.mode.values m)]
    | none => [])

/-- Sequential execution of the device writes inside one modbus session: the
writes are awaited in order and the first failure aborts the rest of the
session (the surrounding try/catch then logs the error). -/
def runHruWrites (writeOk : Nat → Int → Bool) : List (Nat × Int) → List TickEffect
  | [] => []
  | w :: rest =>
    if writeOk w.1 w.2 then TickEffect.hruWrite w.1 w.2 true :: runHruWrites writeOk rest
    else [TickEffect.hruWrite w.1 w.2 false]

/-- JS truthiness of an optional numeric id: present and nonzero. -/
def idTruthy : Option Nat → Bool
  | some i => i != 0
  | none => false

/-- Embedding of the standalone-server applyTimelineEvent as a state transition:
given the ambient inputs and the lastAppliedEventId before the tick, it returns
the lastAppliedEventId after the tick and the list of attempted side effects.
No active event clears the tracker and does nothing; an already-applied event
short-circuits; otherwise valve writes run (failures skipped per entity), then
the device session (its failure caught as a whole), and the tracker is set to
the event id unconditionally. -/
def applyTimelineEvent (env : SchedulerEnv) (lastApplied : Option Nat) :
    Option Nat × List TickEffect :=
  match pickActiveEvent env.events env.today env.nowMinutes with
  | none => (none, [])
  | some event =>
    if idTruthy event.id && (lastApplied == event.id) then (lastApplied, [])
    else
      let hasValves := match event.luftatorConfig with
        | some cfg => !cfg.isEmpty
        | none => false
      let hasHru := event.hruConfig.isSome
      if !hasValves && !hasHru then (event.id, [])
      else
        let valveEffects := match event.luftatorConfig with
          | some cfg => if hasValves then runValveWrites env.valveOk cfg else []
          | none => []
        let hruEffects := match event.hruConfig with
          | some cfg =>
            match env.hruCtx with
            | some defn =>
              if env.connectOk then runHruWrites env.writeOk (hruPlannedWrites defn cfg)
              else []
            | none => []
          | none => []
        (event.id, valveEffects ++ hruEffects)

/-! ## Write-sequencing interpreter (applyWriteDefinition) -/

/-- Register kind tag of a write step. -/
inductive RegisterKind where
  | holding
  | input
deriving DecidableEq, Repr

/-- The value a step writes: a constant or a pure function of the caller input. -/
inductive StepValue where
  | const (v : Int)
  | fn (f : Int → Int)

/-- One step of a write plan. -/
structure WriteStep where
  address : Nat
  kind : RegisterKind
  value : StepValue
  delayMs : Option Nat

/-- A declarative write plan: an ordered list of steps. -/
structure WriteDefinition where
  steps : List WriteStep

/-- The raw value a step puts on the wire for a given caller input. -/
def stepRawValue (s : WriteStep) (inputValue : Int) : Int :=
  match s.value with
  | .const v => v
  | .fn f => f inputValue

/-- Observable wire activity: a register write or a settle delay. -/
inductive WireEvent where
  | write (address : Nat) (value : Int)
  | settle (ms : Nat)
deriving DecidableEq, Repr

/-- The settle events a completed step emits: one delay when delayMs is truthy
(present and nonzero), none otherwise. -/
def stepDelayEvents (s : WriteStep) : List WireEvent :=
  match s.delayMs with
  | some d => if d ≠ 0 then [WireEvent.settle d] else []
  | none => []

/-- Embedding of the loop body of applyWriteDefinition over the remaining steps.
Each step computes its value, awaits writeHolding (the source issues a
holding-register write for both kind tags), and on success honors the declared
settle delay before the next step; a failing write ends the run with its error. -/
def runWriteSteps (mb : Nat → Int → Except String Unit) (steps : List WriteStep)
    (inputValue : Int) : List WireEvent × Option String :=
  match steps with
  | [] => ([], none)
  | s :: rest =>
    let v := stepRawValue s inputValue
    match mb s.address v with
    | .error e => ([WireEvent.write s.address v], some e)
    | .ok _ =>
      let tail := runWriteSteps mb rest inputValue
      (WireEvent.write s.address v :: (stepDelayEvents s ++ tail.1), tail.2)

/-- Embedding of applyWriteDefinition (utils/hruWrite): run the steps of the
plan strictly in order against the transport. -/
def applyWriteDefinition (mb : Nat → Int → Except String Unit) (wd : WriteDefinition)
    (inputValue : Int) : List WireEvent × Option String :=
  runWriteSteps mb wd.steps inputValue

/-- The wire activity of a fully successful run: every step in plan order, its
write followed by its settle delay. -/
def fullTrace (steps : List WriteStep) (inputValue : Int) : List WireEvent :=
  steps.foldr
    (fun s acc => WireEvent.write s.address (stepRawValue s inputValue) ::
      (stepDelayEvents s ++ acc)) []

/-! ## Register scale conversion on the read path -/

/-- The read conversion of the GET /read handler: a truthy scale multiplies the
raw value, a missing or zero scale leaves the raw value unchanged. -/
def temperatureReadValue (scale : Option ℚ) (raw : Int) : ℚ :=
  match scale with
  | some s => if s = 0 then (raw : ℚ) else (raw : ℚ) * s
  | none => (raw : ℚ)

/-! ## Entity state synchronizer command path -/

/-- One row of the valve snapshot table. -/
structure ValveSnapshot where
  entityId : String
  name : String
  value : ℚ
  state : String
deriving DecidableEq, Repr

/-- Synchronizer state: the snapshot table plus the upstream set-value commands
issued so far. -/
structure SyncState where
  snapshot : List ValveSnapshot
  upstreamCalls : List (String × ℚ)
deriving DecidableEq, Repr

/-- Typed failures of the command path. -/
inductive ValveError where
  | unknownEntity (entityId : String)
deriving DecidableEq, Repr

/-- Modelled from the spec: the ValveManager implementation (core/valveManager)
is not among the provided sources, only its ValveController interface and its
callers are. Spec contract for setValue(entityId, value): fails immediately
with an unknown-entity condition if entityId is absent from the snapshot,
never silently creating entries; otherwise issues the upstream set-value
command. The returned state is the state after the call. -/
def setValue (st : SyncState) (entityId : String) (value : ℚ) :
    SyncState × Except ValveError ValveSnapshot :=
  match st.snapshot.find? (fun v => v.entityId == entityId) with
  | none => (st, Except.error (ValveError.unknownEntity entityId))
  | some row =>
    ({ st with upstreamCalls := st.upstreamCalls ++ [(entityId, value)] }, Except.ok row)

/-! ## Tick cadence models -/

/-- Start time of the n-th tick under the standalone-server scheduler
(startTimelineScheduler): setInterval fires its callback every 30000 ms and the
callback discards the promise of applyTimelineEvent, so under JS timer
semantics the n-th invocation begins at 30000 * n regardless of how long the
previous invocation runs. -/
def serverTickStart (n : Nat) : Nat := 30000 * n

/-- Start time of the n-th tick under the add-on TimelineRunner
(scheduleNextTimelineTick): the next setTimeout is armed only in the .finally
continuation after the previous applyTimelineEvent settles, so each tick starts
its successor only after running for its duration, plus the timer delay to the
next minute boundary. -/
def runnerTickStart (dur delay : Nat → Nat) : Nat → Nat
  | 0 => 0
  | n + 1 => runnerTickStart dur delay n + dur n + delay n

/-- A tick started at a given time with a given duration is in flight at t. -/
def inFlightAt (start dur t : Nat) : Prop := start ≤ t ∧ t < start + dur

/-- Strict serialization of ticks: each tick begins no earlier than the
previous one finished. -/
def ticksSerialized (start dur : Nat → Nat) : Prop :=
  ∀ n, start n + dur n ≤ start (n + 1)

/-! ## Concrete inputs used by witnesses and counterexamples -/

/-- A rule with window 10:00 to 14:00, every day, enabled, one valve target. -/
def windowEvent : TimelineEvent :=
  { id := some 7, startTime := "10:00", endTime := "14:00", dayOfWeek := none,
    hruConfig := none, luftatorConfig := some [("number.luftator_kitchen", some 50)],
    enabled := true, priority := 0 }

/-- The same rule with the enabled flag cleared. -/
def disabledEvent : TimelineEvent :=
  { windowEvent with id := some 8, enabled := false }

/-- A lower-priority rule overlapping windowEvent with an earlier start. -/
def earlyEvent : TimelineEvent :=
  { id := some 3, startTime := "08:00", endTime := "20:00", dayOfWeek := none,
    hruConfig := none, luftatorConfig := none, enabled := true, priority := 1 }

/-- A higher-priority rule overlapping earlyEvent with a later start. -/
def lateEvent : TimelineEvent :=
  { id := some 4, startTime := "10:00", endTime := "14:00", dayOfWeek := none,
    hruConfig := none, luftatorConfig := none, enabled := true, priority := 5 }

/-- One tick environment at 12:00 whose only valve write fails. -/
def failingValveEnv : SchedulerEnv :=
  { events := [windowEvent], today := 0, nowMinutes := 720,
    valveOk := fun _ => false, hruCtx := none, connectOk := true,
    writeOk := fun _ _ => true }

/-- A tick environment whose only rule is disabled, so no candidate exists. -/
def idleEnv : SchedulerEnv :=
  { events := [disabledEvent], today := 0, nowMinutes := 720,
    valveOk := fun _ => true, hruCtx := none, connectOk := true,
    writeOk := fun _ _ => true }

/-- A transport on which every write succeeds. -/
def okTransport : Nat → Int → Except String Unit := fun _ _ => Except.ok ()

/-- A two-step unlock-then-commit write plan with a settle delay. -/
def unlockCommitPlan : WriteDefinition :=
  { steps :=
      [{ address := 10700, kind := RegisterKind.holding,
         value := StepValue.const 1, delayMs := some 100 },
       { address := 10704, kind := RegisterKind.holding,
         value := StepValue.fn (fun x => x), delayMs := none }] }

/-- A synchronizer state knowing exactly one valve entity. -/
def oneValveState : SyncState :=
  { snapshot := [{ entityId := "number.luftator_kitchen", name := "Kitchen",
                   value := 30, state := "30" }],
    upstreamCalls := [] }

/-! # Theorems -/

/-! ## The parseInt / String(n) round trip -/

theorem jsRound_eq_round (q : ℚ) : jsRound q = round q := (round_eq q).symm

theorem digitChar_mem_decimalChars (d : Nat) : digitChar d ∈ decimalChars := by
  unfold digitChar
  split <;> simp [decimalChars]

theorem digitVal_digitChar (d : Nat) (h : d < 10) : digitVal (digitChar d) = d := by
  interval_cases d <;> rfl

theorem decimal_not_whitespace (c : Char) (h : c ∈ decimalChars) :
    c.isWhitespace = false := by
  fin_cases h <;> rfl

theorem decimal_isDigit (c : Char) (h : c ∈ decimalChars) : c.isDigit = true := by
  fin_cases h <;> rfl

theorem decimal_ne_dash (c : Char) (h : c ∈ decimalChars) : ¬(c = '-' ∨ c = '+') := by
  fin_cases h <;> decide

theorem natDigits_ne_nil (n : Nat) : natDigits n ≠ [] := by
  rw [natDigits]
  split
  · simp
  · simp

theorem mem_natDigits (n : Nat) : ∀ c ∈ natDigits n, c ∈ decimalChars := by
  induction n using Nat.strong_induction_on with
  | _ n ih =>
    intro c hc
    rw [natDigits] at hc
    by_cases h : n < 10
    · simp only [if_pos h, List.mem_singleton] at hc
      exact hc ▸ digitChar_mem_decimalChars n
    · simp only [if_neg h, List.mem_append, List.mem_singleton] at hc
      rcases hc with h1 | h2
      · exact ih (n / 10) (Nat.div_lt_self (by omega) (by omega)) c h1
      · exact h2 ▸ digitChar_mem_decimalChars (n % 10)

theorem digitsToNat_append_digit (xs : List Char) (c : Char) :
    digitsToNat (xs ++ [c]) = 10 * digitsToNat xs + digitVal c := by
  simp [digitsToNat, List.foldl_append]

theorem digitsToNat_natDigits (n : Nat) : digitsToNat (natDigits n) = n := by
  induction n using Nat.strong_induction_on with
  | _ n ih =>
    rw [natDigits]
    by_cases h : n < 10
    · simp only [if_pos h]
      simp [digitsToNat, digitVal_digitChar n h]
    · simp only [if_neg h]
      rw [digitsToNat_append_digit, ih (n / 10) (Nat.div_lt_self (by omega) (by omega)),
        digitVal_digitChar (n % 10) (Nat.mod_lt n (by omega))]
      omega

theorem takeWhile_of_all {p : Char → Bool} (l : List Char) (h : ∀ c ∈ l, p c = true) :
    l.takeWhile p = l := by
  induction l with
  | nil => rfl
  | cons c t iht =>
    rw [List.takeWhile_cons, if_pos (h c (List.mem_cons_self c t))]
    rw [iht (fun x hx => h x (List.mem_cons_of_mem c hx))]

theorem parseDigits_natDigits (n : Nat) : parseDigits (natDigits n) = some n := by
  unfold parseDigits
  rw [takeWhile_of_all (natDigits n) (fun c hc => decimal_isDigit c (mem_natDigits n c hc))]
  simp only [List.isEmpty_iff]
  rw [if_neg (natDigits_ne_nil n), digitsToNat_natDigits n]

theorem dropWhile_whitespace_natDigits (n : Nat) :
    (natDigits n).dropWhile Char.isWhitespace = natDigits n := by
  obtain ⟨c, t, hct⟩ := List.exists_cons_of_ne_nil (natDigits_ne_nil n)
  have hc : c ∈ decimalChars := mem_natDigits n c (by rw [hct]; exact List.mem_cons_self c t)
  rw [hct, List.dropWhile_cons, decimal_not_whitespace c hc]
  simp

/-- JS parseInt recovers the decimal rendering of every integral number. -/
theorem jsParseInt_intToString (n : Int) : jsParseInt (intToString n) = some n := by
  unfold jsParseInt charsParseInt intToString
  by_cases hn : n < 0
  · rw [if_pos hn]
    have htl : (String.mk ('-' :: natDigits n.natAbs)).toList = '-' :: natDigits n.natAbs := rfl
    rw [htl, List.dropWhile_cons]
    simp only [show ('-').isWhitespace = false from rfl, Bool.false_eq_true, if_false]
    simp [signedDigits, parseDigits_natDigits]
    rw [abs_of_neg hn, neg_neg]
  · rw [if_neg hn]
    have htl : (String.mk (natDigits n.toNat)).toList = natDigits n.toNat := rfl
    rw [htl, dropWhile_whitespace_natDigits]
    obtain ⟨c, t, hct⟩ := List.exists_cons_of_ne_nil (natDigits_ne_nil n.toNat)
    have hc : c ∈ decimalChars :=
      mem_natDigits n.toNat c (by rw [hct]; exact List.mem_cons_self c t)
    have hne := decimal_ne_dash c hc
    rw [hct]
    simp only [signedDigits, if_neg (fun h => hne (Or.inl h)),
      if_neg (fun h => hne (Or.inr h))]
    rw [← hct, parseDigits_natDigits]
    simp only [Option.map_some']
    congr 1
    rw [Int.ofNat_eq_coe]
    exact Int.toNat_of_nonneg (by omega)

/-! ## Scheduler selection helpers -/

theorem eventLe_iff (a b : TimelineEvent) :
    eventLe a b = true ↔
      (b.priority < a.priority ∨
        (b.priority = a.priority ∧
          timeToMinutes b.startTime ≤ timeToMinutes a.startTime)) := by
  unfold eventLe eventCmp
  rw [decide_eq_true_iff]
  by_cases h : b.priority = a.priority
  · rw [if_neg (fun hne => hne h)]
    omega
  · rw [if_pos h]
    omega

theorem eventLe_trans (a b c : TimelineEvent) (h1 : eventLe a b = true)
    (h2 : eventLe b c = true) : eventLe a c = true := by
  rw [eventLe_iff] at h1 h2 ⊢
  omega

theorem eventLe_total (a b : TimelineEvent) : (eventLe a b || eventLe b a) = true := by
  rw [Bool.or_eq_true, eventLe_iff, eventLe_iff]
  omega

theorem eventLe_refl (a : TimelineEvent) : eventLe a a = true := by
  rw [eventLe_iff]
  omega

/-- The day-of-week clause of the candidate filter. -/
theorem dayMatches_iff (d : Option Int) (today : Nat) :
    (d.getD (today : Int) = (today : Int)) ↔ (d = none ∨ d = some (today : Int)) := by
  cases d <;> simp

/-- Membership in the candidate set, unfolded to the specified conjunction. -/
theorem mem_candidateEvents (events : List TimelineEvent) (today : Nat) (nowMinutes : Int)
    (e : TimelineEvent) :
    e ∈ candidateEvents events today nowMinutes ↔
      (e ∈ events ∧ e.enabled = true ∧
        (e.dayOfWeek = none ∨ e.dayOfWeek = some (today : Int)) ∧
        timeToMinutes e.startTime ≤ nowMinutes ∧
        nowMinutes < timeToMinutes e.endTime) := by
  unfold candidateEvents
  simp only [List.mem_filter, Bool.and_eq_true, decide_eq_true_iff, beq_iff_eq]
  rw [dayMatches_iff]
  tauto

/-- Permuting the rule store permutes the candidate set. -/
theorem candidateEvents_perm (events eventsPerm : List TimelineEvent) (today : Nat)
    (nowMinutes : Int) (hp : eventsPerm.Perm events) :
    (candidateEvents eventsPerm today nowMinutes).Perm
      (candidateEvents events today nowMinutes) := by
  unfold candidateEvents
  exact (hp.filter _).filter _

/-- A non-empty candidate set yields a selection. -/
theorem pickActiveEvent_isSome (events : List TimelineEvent) (today : Nat)
    (nowMinutes : Int) (hne : candidateEvents events today nowMinutes ≠ []) :
    ∃ e, pickActiveEvent events today nowMinutes = some e := by
  unfold pickActiveEvent
  rw [if_neg (by simpa [List.isEmpty_iff] using hne)]
  have hlen : ((candidateEvents events today nowMinutes).mergeSort eventLe).length ≠ 0 := by
    rw [(List.mergeSort_perm (candidateEvents events today nowMinutes) eventLe).length_eq]
    simpa [List.length_eq_zero] using hne
  have hnil : (candidateEvents events today nowMinutes).mergeSort eventLe ≠ [] := by
    intro hh
    exact hlen (by rw [hh]; rfl)
  obtain ⟨x, t, hxt⟩ := List.exists_cons_of_ne_nil hnil
  exact ⟨x, by rw [hxt]; rfl⟩

/-- An empty candidate set yields no selection. -/
theorem pickActiveEvent_none (events : List TimelineEvent) (today : Nat)
    (nowMinutes : Int) (h : candidateEvents events today nowMinutes = []) :
    pickActiveEvent events today nowMinutes = none := by
  unfold pickActiveEvent
  rw [if_pos (by simp [List.isEmpty_iff, h])]

/-- The selected event is a candidate. -/
theorem pickActiveEvent_mem (events : List TimelineEvent) (today : Nat)
    (nowMinutes : Int) (e : TimelineEvent)
    (h : pickActiveEvent events today nowMinutes = some e) :
    e ∈ candidateEvents events today nowMinutes := by
  unfold pickActiveEvent at h
  by_cases hemp : (candidateEvents events today nowMinutes).isEmpty
  · rw [if_pos hemp] at h
    exact absurd h (by simp)
  · rw [if_neg hemp] at h
    cases hs : (candidateEvents events today nowMinutes).mergeSort eventLe with
    | nil => rw [hs] at h; exact absurd h (by simp)
    | cons x t =>
      rw [hs] at h
      simp only [List.head?_cons, Option.some_inj] at h
      have hx : e ∈ (candidateEvents events today nowMinutes).mergeSort eventLe := by
        rw [hs, ← h]
        exact List.mem_cons_self x t
      exact (List.mergeSort_perm (candidateEvents events today nowMinutes) eventLe).mem_iff.mp hx

/-- The selected event sorts no later than every candidate. -/
theorem pickActiveEvent_max (events : List TimelineEvent) (today : Nat)
    (nowMinutes : Int) (e : TimelineEvent)
    (h : pickActiveEvent events today nowMinutes = some e) :
    ∀ c ∈ candidateEvents events today nowMinutes, eventLe e c = true := by
  intro c hc
  unfold pickActiveEvent at h
  by_cases hemp : (candidateEvents events today nowMinutes).isEmpty
  · rw [if_pos hemp] at h
    exact absurd h (by simp)
  · rw [if_neg hemp] at h
    have hpw : List.Pairwise (fun a b => eventLe a b = true)
        ((candidateEvents events today nowMinutes).mergeSort eventLe) :=
      List.sorted_mergeSort eventLe_trans eventLe_total _
    cases hs : (candidateEvents events today nowMinutes).mergeSort eventLe with
    | nil => rw [hs] at h; exact absurd h (by simp)
    | cons x t =>
      rw [hs] at h
      simp only [List.head?_cons, Option.some_inj] at h
      have hcs : c ∈ x :: t := by
        rw [← hs]
        exact (List.mergeSort_perm (candidateEvents events today nowMinutes)
          eventLe).mem_iff.mpr hc
      rw [← h]
      rcases List.mem_cons.mp hcs with hce | hct
      · rw [hce]
        exact eventLe_refl x
      · rw [hs] at hpw
        exact (List.pairwise_cons.mp hpw).1 c hct

/-- Concrete selection: a single in-window rule is picked. -/
theorem pickActiveEvent_windowEvent :
    pickActiveEvent [windowEvent] 0 720 = some windowEvent := by
  unfold pickActiveEvent
  rw [show candidateEvents [windowEvent] 0 720 = [windowEvent] from by decide]
  simp [List.mergeSort_singleton]

/-! ## Claim theorems -/

/-- C1: for every rule list and every current day and time at which the
candidate set is non-empty, the tick selects an active rule that is a candidate
with maximal priority and, among candidates of that priority, with latest
window start; and under every reordering of the rule store the selected rule
has the same priority and the same window start, so the selection does not
depend on the order in which the rule store returns the rules. -/
theorem pickActiveEvent_selects_highest_priority (events : List TimelineEvent)
    (today : Nat) (nowMinutes : Int)
    (hne : candidateEvents events today nowMinutes ≠ []) :
    ∃ e, pickActiveEvent events today nowMinutes = some e ∧
      e ∈ candidateEvents events today nowMinutes ∧
      (∀ c ∈ candidateEvents events today nowMinutes,
        c.priority < e.priority ∨
          (c.priority = e.priority ∧
            timeToMinutes c.startTime ≤ timeToMinutes e.startTime)) ∧
      ∀ eventsPerm : List TimelineEvent, eventsPerm.Perm events →
        ∀ ePerm, pickActiveEvent eventsPerm today nowMinutes = some ePerm →
          ePerm.priority = e.priority ∧
            timeToMinutes ePerm.startTime = timeToMinutes e.startTime := by
  obtain ⟨e, he⟩ := pickActiveEvent_isSome events today nowMinutes hne
  refine ⟨e, he, pickActiveEvent_mem events today nowMinutes e he, ?_, ?_⟩
  · intro c hc
    have hle := pickActiveEvent_max events today nowMinutes e he c hc
    rw [eventLe_iff] at hle
    omega
  · intro eventsPerm hp ePerm hePerm
    have hcand := candidateEvents_perm events eventsPerm today nowMinutes hp
    have hmem : ePerm ∈ candidateEvents events today nowMinutes :=
      hcand.mem_iff.mp (pickActiveEvent_mem eventsPerm today nowMinutes ePerm hePerm)
    have hmem2 : e ∈ candidateEvents eventsPerm today nowMinutes :=
      hcand.mem_iff.mpr (pickActiveEvent_mem events today nowMinutes e he)
    have h1 := pickActiveEvent_max events today nowMinutes e he ePerm hmem
    have h2 := pickActiveEvent_max eventsPerm today nowMinutes ePerm hePerm e hmem2
    rw [eventLe_iff] at h1 h2
    omega

theorem pickActiveEvent_selects_highest_priority_witness :
    ∃ e, pickActiveEvent [earlyEvent, lateEvent] 0 720 = some e ∧
      e ∈ candidateEvents [earlyEvent, lateEvent] 0 720 ∧
      (∀ c ∈ candidateEvents [earlyEvent, lateEvent] 0 720,
        c.priority < e.priority ∨
          (c.priority = e.priority ∧
            timeToMinutes c.startTime ≤ timeToMinutes e.startTime)) ∧
      ∀ eventsPerm : List TimelineEvent, eventsPerm.Perm [earlyEvent, lateEvent] →
        ∀ ePerm, pickActiveEvent eventsPerm 0 720 = some ePerm →
          ePerm.priority = e.priority ∧
            timeToMinutes ePerm.startTime = timeToMinutes e.startTime :=
  pickActiveEvent_selects_highest_priority [earlyEvent, lateEvent] 0 720 (by decide)

/-- C2: a rule is a candidate exactly when it is enabled, its day of week is
absent or equals today, and windowStart <= now < windowEnd; a window from 10:00
to 14:00 makes the rule a candidate at 13:59 (minute 839) and not at 14:00
(minute 840); and a selected rule is always enabled, so a disabled rule is never
selected even when its window matches. -/
theorem candidateEvents_characterization :
    (∀ (events : List TimelineEvent) (today : Nat) (nowMinutes : Int)
        (e : TimelineEvent),
      e ∈ candidateEvents events today nowMinutes ↔
        (e ∈ events ∧ e.enabled = true ∧
          (e.dayOfWeek = none ∨ e.dayOfWeek = some (today : Int)) ∧
          timeToMinutes e.startTime ≤ nowMinutes ∧
          nowMinutes < timeToMinutes e.endTime)) ∧
    timeToMinutes "13:59" = 839 ∧
    timeToMinutes "14:00" = 840 ∧
    windowEvent ∈ candidateEvents [windowEvent] 0 839 ∧
    windowEvent ∉ candidateEvents [windowEvent] 0 840 ∧
    (∀ (events : List TimelineEvent) (today : Nat) (nowMinutes : Int)
        (e : TimelineEvent),
      pickActiveEvent events today nowMinutes = some e → e.enabled = true) := by
  refine ⟨mem_candidateEvents, by decide, by decide, by decide, by decide, ?_⟩
  intro events today nowMinutes e h
  exact ((mem_candidateEvents events today nowMinutes e).mp
    (pickActiveEvent_mem events today nowMinutes e h)).2.1

theorem candidateEvents_characterization_witness : windowEvent.enabled = true :=
  candidateEvents_characterization.2.2.2.2.2 [windowEvent] 0 720 windowEvent
    pickActiveEvent_windowEvent

/-- C7: a tick whose candidate set is empty issues no valve write and no device
register write, and clears the applied-rule tracker; the previously applied
configuration is untouched because the effect list is empty. -/
theorem applyTimelineEvent_empty_candidates (env : SchedulerEnv)
    (lastApplied : Option Nat)
    (h : candidateEvents env.events env.today env.nowMinutes = []) :
    applyTimelineEvent env lastApplied = (none, []) := by
  unfold applyTimelineEvent
  rw [pickActiveEvent_none env.events env.today env.nowMinutes h]

theorem applyTimelineEvent_empty_candidates_witness :
    applyTimelineEvent idleEnv none = (none, []) :=
  applyTimelineEvent_empty_candidates idleEnv none (by decide)

/-- C3 counterexample: in a tick whose only valve write fails, the rule is
still recorded as applied (the tracker becomes its id 7), and the next tick
against the same unchanged active rule issues no writes at all, so the
transient failure is not retried. -/
theorem applyTimelineEvent_failure_still_recorded :
    (applyTimelineEvent failingValveEnv none).2 =
      [TickEffect.valveSet "number.luftator_kitchen" 50 false] ∧
    (applyTimelineEvent failingValveEnv none).1 = some 7 ∧
    (applyTimelineEvent failingValveEnv (some 7)).2 = [] := by
  refine ⟨?_, ?_, ?_⟩ <;>
  · unfold applyTimelineEvent
    rw [show failingValveEnv.events = [windowEvent] from rfl,
      show failingValveEnv.today = 0 from rfl,
      show failingValveEnv.nowMinutes = 720 from rfl,
      pickActiveEvent_windowEvent]
    decide

/-- C3 amended: the tick records the active rule as applied unconditionally,
whether or not any valve or device write failed: after every tick the tracker
equals the id of the selected rule (or is cleared when there is none); and a
later tick against the same active rule with truthy id issues no effects, so a
transient write failure is not retried while that rule stays active. -/
theorem applyTimelineEvent_lastApplied_unconditional (env : SchedulerEnv)
    (lastApplied : Option Nat) :
    ((applyTimelineEvent env lastApplied).1 =
      (pickActiveEvent env.events env.today env.nowMinutes).bind TimelineEvent.id) ∧
    (∀ e, pickActiveEvent env.events env.today env.nowMinutes = some e →
      idTruthy e.id = true → (applyTimelineEvent env e.id).2 = []) := by
  constructor
  · unfold applyTimelineEvent
    cases hp : pickActiveEvent env.events env.today env.nowMinutes with
    | none => rfl
    | some e =>
      simp only [Option.some_bind]
      by_cases hg : (idTruthy e.id && (lastApplied == e.id)) = true
      · rw [if_pos hg]
        exact eq_of_beq ((Bool.and_eq_true _ _).mp hg).2
      · rw [if_neg hg]
        split <;> rfl
  · intro e hp ht
    unfold applyTimelineEvent
    rw [hp]
    dsimp only
    rw [if_pos (by simp [ht])]

theorem applyTimelineEvent_lastApplied_unconditional_witness :
    (applyTimelineEvent failingValveEnv windowEvent.id).2 = [] :=
  (applyTimelineEvent_lastApplied_unconditional failingValveEnv windowEvent.id).2
    windowEvent pickActiveEvent_windowEvent (by decide)

/-- C4 counterexample: for the enum mapping with labels Off and 5 and the
desired string mode 5, the inline resolution of the scheduler device path
yields 5 (integer parsing first) while the interpreter resolveMode yields 1
(label lookup first), so the two are not equal on all inputs. -/
theorem timelineModeValue_diverges_from_resolveModeValue :
    timelineModeValue ["Off", "5"] (.str "5") = 5 ∧
    resolveModeValue ["Off", "5"] (.str "5") = 1 ∧
    timelineModeValue ["Off", "5"] (.str "5") ≠
      resolveModeValue ["Off", "5"] (.str "5") := by
  decide

/-- C4 amended: the inline mode resolution of the scheduler device path agrees
with the interpreter resolveMode for every integral numeric desired mode, and
for every string desired mode that does not parse as an integer or does not
occur among the display labels; the two can differ only on a string that both
parses as an integer and occurs as a label, because the scheduler tries integer
parsing before label lookup while resolveMode checks labels first. -/
theorem timelineModeValue_agrees_when_unambiguous :
    (∀ (values : List String) (n : Int),
      timelineModeValue values (.num n) = resolveModeValue values (.num n)) ∧
    (∀ (values : List String) (s : String), jsParseInt s = none →
      timelineModeValue values (.str s) = resolveModeValue values (.str s)) ∧
    (∀ (values : List String) (s : String),
      values.findIdx? (fun v => v == s) = none →
      timelineModeValue values (.str s) = resolveModeValue values (.str s)) := by
  refine ⟨?_, ?_, ?_⟩
  · intro values n
    simp [timelineModeValue, modeToString, jsParseInt_intToString, resolveModeValue]
  · intro values s h
    simp only [timelineModeValue, modeToString, h, strictEqMode, resolveModeValue]
    cases hf : values.findIdx? (fun v => v == s) with
    | none => simp [h]
    | some i => simp
  · intro values s h
    simp only [timelineModeValue, modeToString, strictEqMode, resolveModeValue, h]
    cases hp : jsParseInt s with
    | none => simp
    | some p => simp

theorem timelineModeValue_agrees_when_unambiguous_witness :
    timelineModeValue ["Off", "Auto", "Ventilation"] (.str "Ventilation") =
      resolveModeValue ["Off", "Auto", "Ventilation"] (.str "Ventilation") :=
  timelineModeValue_agrees_when_unambiguous.2.1 ["Off", "Auto", "Ventilation"]
    "Ventilation" (by decide)

/-- C5: resolveMode is total by construction (it is a Lean function defined on
every mapping and every desired mode, with no exception path) and returns the
desired mode itself whenever it is numeric, for every mapping; otherwise the
index of the first enum entry whose display label equals the desired string;
otherwise the integer parse of the string, defaulting to 0; including the three
specified instances. -/
theorem resolveModeValue_spec :
    (∀ (values : List String) (n : Int), resolveModeValue values (.num n) = n) ∧
    (∀ (values : List String) (s : String) (i : Nat),
      values.findIdx? (fun v => v == s) = some i →
      resolveModeValue values (.str s) = Int.ofNat i) ∧
    (∀ (values : List String) (s : String),
      values.findIdx? (fun v => v == s) = none →
      resolveModeValue values (.str s) = (jsParseInt s).getD 0) ∧
    resolveModeValue ["Off", "Auto", "Ventilation"] (.str "Ventilation") = 2 ∧
    (∀ values : List String, resolveModeValue values (.num 2) = 2) ∧
    resolveModeValue [] (.str "unknown-label") = 0 := by
  refine ⟨fun _ _ => rfl, ?_, ?_, by decide, fun _ => rfl, by decide⟩
  · intro values s i h
    simp [resolveModeValue, h]
  · intro values s h
    simp [resolveModeValue, h]

theorem resolveModeValue_spec_witness :
    resolveModeValue ["Off", "Auto"] (.str "Auto") = Int.ofNat 1 :=
  resolveModeValue_spec.2.1 ["Off", "Auto"] "Auto" 1 (by decide)

/-! ## Write-sequencing interpreter helpers -/

theorem runWriteSteps_ok_trace (mb : Nat → Int → Except String Unit)
    (steps : List WriteStep) (inputValue : Int)
    (h : (runWriteSteps mb steps inputValue).2 = none) :
    (runWriteSteps mb steps inputValue).1 = fullTrace steps inputValue := by
  induction steps with
  | nil => rfl
  | cons s rest ih =>
    cases hmb : mb s.address (stepRawValue s inputValue) with
    | error e =>
      simp only [runWriteSteps, hmb] at h
      exact absurd h (by simp)
    | ok u =>
      simp only [runWriteSteps, hmb] at h ⊢
      rw [show fullTrace (s :: rest) inputValue =
        WireEvent.write s.address (stepRawValue s inputValue) ::
          (stepDelayEvents s ++ fullTrace rest inputValue) from rfl]
      rw [ih h]

theorem runWriteSteps_error_trace (mb : Nat → Int → Except String Unit)
    (steps : List WriteStep) (inputValue : Int) (e : String)
    (h : (runWriteSteps mb steps inputValue).2 = some e) :
    ∃ k, ∃ hk : k < steps.length,
      mb (steps.get ⟨k, hk⟩).address (stepRawValue (steps.get ⟨k, hk⟩) inputValue) =
        Except.error e ∧
      (∀ j (hj : j < steps.length), j < k →
        ∃ u, mb (steps.get ⟨j, hj⟩).address
          (stepRawValue (steps.get ⟨j, hj⟩) inputValue) = Except.ok u) ∧
      (runWriteSteps mb steps inputValue).1 =
        fullTrace (steps.take k) inputValue ++
          [WireEvent.write (steps.get ⟨k, hk⟩).address
            (stepRawValue (steps.get ⟨k, hk⟩) inputValue)] := by
  induction steps with
  | nil => simp [runWriteSteps] at h
  | cons s rest ih =>
    cases hmb : mb s.address (stepRawValue s inputValue) with
    | error e0 =>
      simp only [runWriteSteps, hmb] at h ⊢
      have he : e0 = e := by simpa using h
      refine ⟨0, by simp, ?_, ?_, ?_⟩
      · simpa [he] using hmb
      · intro j hj hj0
        omega
      · simp [fullTrace]
    | ok u =>
      simp only [runWriteSteps, hmb] at h ⊢
      obtain ⟨k, hk, hstep, hprev, htr⟩ := ih h
      refine ⟨k + 1, by simpa using Nat.succ_lt_succ hk, ?_, ?_, ?_⟩
      · simpa using hstep
      · intro j hj hjk
        cases j with
        | zero => exact ⟨u, by simpa using hmb⟩
        | succ j0 => simpa using hprev j0 (by simpa using hj) (by omega)
      · rw [htr, List.take_succ_cons,
          show fullTrace (s :: rest.take k) inputValue =
            WireEvent.write s.address (stepRawValue s inputValue) ::
              (stepDelayEvents s ++ fullTrace (rest.take k) inputValue) from rfl]
        simp [List.append_assoc]

/-- C6: apply executes the steps of the plan strictly in order. When every
write succeeds, the wire activity is exactly: for each step in plan order, a
write of its constant value or of its pure function applied to the input value,
followed by its declared settle delay before the next step starts. When a write
fails, the run surfaces that error, every earlier step succeeded, the failing
write is the last wire activity, and no later step executes. -/
theorem applyWriteDefinition_spec (mb : Nat → Int → Except String Unit)
    (wd : WriteDefinition) (inputValue : Int) :
    ((applyWriteDefinition mb wd inputValue).2 = none →
      (applyWriteDefinition mb wd inputValue).1 = fullTrace wd.steps inputValue) ∧
    (∀ e, (applyWriteDefinition mb wd inputValue).2 = some e →
      ∃ k, ∃ hk : k < wd.steps.length,
        mb (wd.steps.get ⟨k, hk⟩).address
          (stepRawValue (wd.steps.get ⟨k, hk⟩) inputValue) = Except.error e ∧
        (∀ j (hj : j < wd.steps.length), j < k →
          ∃ u, mb (wd.steps.get ⟨j, hj⟩).address
            (stepRawValue (wd.steps.get ⟨j, hj⟩) inputValue) = Except.ok u) ∧
        (applyWriteDefinition mb wd inputValue).1 =
          fullTrace (wd.steps.take k) inputValue ++
            [WireEvent.write (wd.steps.get ⟨k, hk⟩).address
              (stepRawValue (wd.steps.get ⟨k, hk⟩) inputValue)]) :=
  ⟨runWriteSteps_ok_trace mb wd.steps inputValue,
    fun e h => runWriteSteps_error_trace mb wd.steps inputValue e h⟩

theorem applyWriteDefinition_spec_witness :
    (applyWriteDefinition okTransport unlockCommitPlan 60).1 =
      fullTrace unlockCommitPlan.steps 60 :=
  (applyWriteDefinition_spec okTransport unlockCommitPlan 60).1 rfl

/-! ## Scale conversion -/

/-- The sample conversion: input 22 at scale one tenth writes raw 220. -/
theorem temperatureWireValue_sample : temperatureWireValue (some (1 / 10)) 22 = 220 := by
  rw [show temperatureWireValue (some (1 / 10)) 22 =
    ⌊(22 : ℚ) / (1 / 10) + 1 / 2⌋ from rfl, Int.floor_eq_iff]
  constructor <;> norm_num

/-- C8: with a declared scale s, writing x puts round(x / s) on the wire and
the scale defaults to 1 when unspecified; reading wire value w yields w * s;
the round trip deviates by at most s / 2; and in particular writing temperature
22.0 with scale 0.1 writes raw 220, and reading it back returns 22.0, within
the 0.1 tolerance. -/
theorem temperatureScale_roundTrip :
    (∀ (s : ℚ) (x : ℚ), temperatureWireValue (some s) x = jsRound (x / s)) ∧
    (∀ x : ℚ, temperatureWireValue none x = jsRound x) ∧
    (∀ (s : ℚ) (raw : Int), s ≠ 0 →
      temperatureReadValue (some s) raw = (raw : ℚ) * s) ∧
    (∀ (s : ℚ) (x : ℚ), 0 < s →
      |temperatureReadValue (some s) (temperatureWireValue (some s) x) - x| ≤ s / 2) ∧
    temperatureWireValue (some (1 / 10)) 22 = 220 ∧
    |temperatureReadValue (some (1 / 10)) (temperatureWireValue (some (1 / 10)) 22)
      - 22| ≤ 1 / 10 := by
  refine ⟨fun _ _ => rfl, ?_, ?_, ?_, temperatureWireValue_sample, ?_⟩
  · intro x
    simp [temperatureWireValue]
  · intro s raw hs
    simp [temperatureReadValue, hs]
  · intro s x hs
    have hwe : temperatureReadValue (some s) (temperatureWireValue (some s) x) =
        ((jsRound (x / s) : ℚ)) * s := by
      simp [temperatureReadValue, temperatureWireValue, ne_of_gt hs]
    rw [hwe, jsRound_eq_round]
    have h1 : |x / s - (round (x / s) : ℚ)| ≤ 1 / 2 := abs_sub_round (x / s)
    have hx : (round (x / s) : ℚ) * s - x = ((round (x / s) : ℚ) - x / s) * s := by
      rw [sub_mul, div_mul_cancel₀ x (ne_of_gt hs)]
    rw [hx, abs_mul, abs_of_pos hs]
    calc |(round (x / s) : ℚ) - x / s| * s ≤ (1 / 2) * s := by
          apply mul_le_mul_of_nonneg_right _ (le_of_lt hs)
          rw [abs_sub_comm]
          exact h1
      _ = s / 2 := by ring
  · rw [temperatureWireValue_sample]
    rw [show temperatureReadValue (some (1 / 10)) 220 = (220 : ℚ) * (1 / 10) from by
      simp [temperatureReadValue]]
    norm_num

theorem temperatureScale_roundTrip_witness :
    (0 : ℚ) < 1 / 10 ∧
    |temperatureReadValue (some (1 / 10)) (temperatureWireValue (some (1 / 10)) 22)
      - 22| ≤ (1 / 10) / 2 :=
  ⟨by norm_num, temperatureScale_roundTrip.2.2.2.1 (1 / 10) 22 (by norm_num)⟩

/-- C9: setValue on an entity absent from the snapshot fails immediately with
the unknown-entity error, leaves the state unchanged (so it issues zero
upstream set-value calls and creates no snapshot entry). -/
theorem setValue_unknown_entity (st : SyncState) (entityId : String) (value : ℚ)
    (h : ∀ row ∈ st.snapshot, row.entityId ≠ entityId) :
    setValue st entityId value =
      (st, Except.error (ValveError.unknownEntity entityId)) := by
  unfold setValue
  have hf : st.snapshot.find? (fun v => v.entityId == entityId) = none := by
    rw [List.find?_eq_none]
    intro x hx
    simp [h x hx]
  rw [hf]

theorem setValue_unknown_entity_witness :
    setValue oneValveState "number.luftator_bedroom" 40 =
      (oneValveState, Except.error (ValveError.unknownEntity "number.luftator_bedroom")) :=
  setValue_unknown_entity oneValveState "number.luftator_bedroom" 40 (by decide)

/-- C10: the standalone-server scheduler arms setInterval every 30000 ms and
discards the promise of each tick, so tick start times are independent of tick
durations: with a 40000 ms tick duration serialization fails and the second
tick begins while the first is still in flight; by contrast the add-on
TimelineRunner arms the next timer only after the previous tick settles, and is
serialized for every assignment of durations and timer delays. -/
theorem serverTicks_overlap_runnerTicks_serialized :
    (¬ ticksSerialized serverTickStart (fun _ => 40000)) ∧
    inFlightAt (serverTickStart 0) 40000 (serverTickStart 1) ∧
    (∀ dur delay : Nat → Nat, ticksSerialized (runnerTickStart dur delay) dur) := by
  refine ⟨?_, ?_, ?_⟩
  · intro hser
    have h0 := hser 0
    simp only [serverTickStart] at h0
    omega
  · simp only [inFlightAt, serverTickStart]
    omega
  · intro dur delay n
    simp only [runnerTickStart]
    omega

end Luftuj
